import Mathlib

/-!
Verification of the RGF bitmap library (package `rgf`, file `rgf.go`).

The Go code is shallowly embedded: Go `uint8` values become `Nat` (with
`< 256` bounds carried in well-formedness predicates), byte slices become
`List Nat`, `float64` grayscale residuals become `ℚ`, in-place slice writes
become functional updates (`modifyAt`), and the `io.Reader`/`io.Writer`
streams become a byte-list stream model with an optional persistent fault.
-/

set_option maxHeartbeats 1000000

namespace Rgf

/-- Update the element at index `i` of a list, leaving every other position
unchanged. Out-of-range indices leave the list unchanged. This models an
in-place Go slice write. -/
def modifyAt {α : Type} : List α → Nat → (α → α) → List α
| [], _, _ => []
| a :: as, 0, f => f a :: as
| a :: as, i+1, f => a :: modifyAt as i f

/-- RGF bitmap (Go `Bitmap` struct): `Width` and `Height` are `uint8` values,
`PixelRows` holds the packed pixel bytes, one inner list per row. -/
structure Bitmap where
Width : Nat
Height : Nat
PixelRows : List (List Nat)
deriving DecidableEq

/-- Bytes per row, `(int(Width) + 7) / 8`, as computed in `Create` and `Read`. -/
def stride (w : Nat) : Nat := (w + 7) / 8

/-- `Create` (rgf.go): allocates `Height` rows of `stride` zero bytes. -/
def Create (Width Height : Nat) : Bitmap :=
{ Width := Width, Height := Height,
  PixelRows := List.replicate Height (List.replicate (stride Width) 0) }

/-- `Bitmap.Get` (rgf.go): reports whether the pixel at `[x, y]` is black;
out-of-range coordinates read as `false`. The Go row/byte indexing cannot go
out of range for well-formed bitmaps; `getD` supplies a default on the
unreachable branch. -/
def Bitmap.Get (img : Bitmap) (x y : Nat) : Bool :=
if x ≥ img.Width ∨ y ≥ img.Height then false
else (((img.PixelRows.getD y []).getD (x / 8) 0) >>> (x % 8)) &&& 1 == 1

/-- `Bitmap.Set` (rgf.go): sets (`black = true`, bitwise or) or clears
(`black = false`, bitwise and with `0xFF ^ (1 << bit)`) the addressed bit;
out-of-range coordinates are silently ignored. -/
def Bitmap.Set (img : Bitmap) (x y : Nat) (black : Bool) : Bitmap :=
if x ≥ img.Width ∨ y ≥ img.Height then img
else
  { img with
    PixelRows := modifyAt img.PixelRows y (fun row =>
      modifyAt row (x / 8) (fun b =>
        if black then b ||| (1 <<< (x % 8)) else b &&& (0xFF ^^^ (1 <<< (x % 8))))) }

/-- Well-formed bitmap: `uint8` dimensions, exactly `Height` rows, each row of
exactly `stride` bytes, each byte a `uint8` value. These are the invariants
the Go type system and `Create` guarantee. -/
def Bitmap.WF (img : Bitmap) : Prop :=
img.Width < 256 ∧ img.Height < 256 ∧ img.PixelRows.length = img.Height ∧
∀ row ∈ img.PixelRows, row.length = stride img.Width ∧ ∀ b ∈ row, b < 256

instance (img : Bitmap) : Decidable img.WF := by
unfold Bitmap.WF
infer_instance

/-- `Bitmap.Write` (rgf.go): the byte stream produced by a successful `Write` —
the 2-byte header (`Width`, `Height`) followed by the pixel rows in order,
with no padding. -/
def Bitmap.writeBytes (img : Bitmap) : List Nat :=
img.Width :: img.Height :: img.PixelRows.flatten

/-- Errors surfaced by the Go `Read`: end-of-stream, the two truncation
errors created by `Read` itself, and a propagated underlying stream fault
(`ioErr code`). -/
inductive GoErr where
| eof : GoErr
| headerTruncated : GoErr
| bodyTruncated : GoErr
| ioErr : Nat → GoErr
deriving DecidableEq

/-- Byte stream model for the `io.Reader` handed to `Read`: the available
bytes, followed by either clean end-of-stream (`fault = none`) or a
persistent stream error (`fault = some code`). -/
structure ByteStream where
data : List Nat
fault : Option Nat
deriving DecidableEq

/-- One `r.Read(p)` call with `len(p) = k`: returns the bytes read, the Go
error, and the remaining stream. Semantics of an in-memory byte buffer: a
zero-length read returns no error, a read at exhaustion returns EOF or the
stream's fault, and otherwise up to `k` of the available bytes are returned
with no error. -/
def streamRead (s : ByteStream) (k : Nat) : List Nat × Option GoErr × ByteStream :=
if k = 0 then ([], none, s)
else if s.data.isEmpty then
  ([], some (match s.fault with | some c => GoErr.ioErr c | none => GoErr.eof), s)
else (s.data.take k, none, { data := s.data.drop k, fault := s.fault })

/-- The row-reading loop of `Read` (rgf.go): reads `n` rows of `str` bytes
each, propagating stream errors and rejecting short rows. -/
def readRows (str : Nat) : Nat → ByteStream → Except GoErr (List (List Nat) × ByteStream)
| 0, s => Except.ok ([], s)
| n+1, s =>
  match streamRead s str with
  | (_, some e, _) => Except.error e
  | (bytes, none, s1) =>
    if bytes.length < str then Except.error GoErr.bodyTruncated
    else match readRows str n s1 with
      | Except.error e => Except.error e
      | Except.ok (rows, s2) => Except.ok (bytes :: rows, s2)

/-- `Read` (rgf.go): reads the 2-byte header, then `Height` rows of `stride`
bytes; returns the Go `(*Bitmap, error)` pair, with `none` for the bitmap on
every failure path. -/
def rgfRead (s : ByteStream) : Option Bitmap × Option GoErr :=
match streamRead s 2 with
| (_, some e, _) => (none, some e)
| (hdr, none, s1) =>
  if hdr.length ≠ 2 then (none, some GoErr.headerTruncated)
  else
    let w := hdr.getD 0 0
    let h := hdr.getD 1 0
    match readRows (stride w) h s1 with
    | Except.error e => (none, some e)
    | Except.ok (rows, _) => (some { Width := w, Height := h, PixelRows := rows }, none)

/-! ### Helper lemmas about `modifyAt` -/

theorem length_modifyAt {α : Type} (l : List α) (i : Nat) (f : α → α) :
    (modifyAt l i f).length = l.length := by
  induction l generalizing i with
  | nil => rfl
  | cons a as ih =>
    cases i with
    | zero => rfl
    | succ n => simp [modifyAt, ih]

theorem getD_modifyAt {α : Type} (l : List α) (i j : Nat) (f : α → α) (d : α) :
    (modifyAt l i f).getD j d =
      if i = j ∧ i < l.length then f (l.getD j d) else l.getD j d := by
  induction l generalizing i j with
  | nil => simp [modifyAt]
  | cons a as ih =>
    cases i with
    | zero =>
      cases j with
      | zero => simp [modifyAt]
      | succ m => simp [modifyAt]
    | succ n =>
      cases j with
      | zero => simp [modifyAt]
      | succ m =>
        simp only [modifyAt, List.getD_cons_succ, ih, List.length_cons]
        by_cases hn : n = m
        · subst hn
          by_cases hb : n < as.length
          · simp [hb, Nat.succ_lt_succ hb]
          · simp [hb, fun h => hb (Nat.lt_of_succ_lt_succ h)]
        · simp [hn, fun h : n + 1 = m + 1 => hn (Nat.succ_injective h)]

theorem mem_modifyAt_prop {α : Type} {p : α → Prop} (l : List α) (i : Nat) (f : α → α)
    (hl : ∀ a ∈ l, p a) (hf : ∀ a, p a → p (f a)) :
    ∀ a ∈ modifyAt l i f, p a := by
  induction l generalizing i with
  | nil => simp [modifyAt]
  | cons a as ih =>
    cases i with
    | zero =>
      intro b hb
      rcases List.mem_cons.mp hb with hb | hb
      · exact hb ▸ hf a (hl a (by simp))
      · exact hl b (by simp [hb])
    | succ n =>
      intro b hb
      rcases List.mem_cons.mp hb with hb | hb
      · exact hb ▸ hl a (by simp)
      · exact ih n (fun c hc => hl c (by simp [hc])) b hb

theorem getD_mem {α : Type} (l : List α) (i : Nat) (d : α) (h : i < l.length) :
    l.getD i d ∈ l := by
  rw [List.getD_eq_getElem?_getD, List.getElem?_eq_getElem h]
  exact List.getElem_mem h

/-! ### Bit-level lemmas for the packed byte representation -/

theorem bitRead_eq_testBit (v i : Nat) : ((v >>> i) &&& 1 == 1) = v.testBit i := by
  rw [Bool.eq_iff_iff, Nat.testBit_to_div_mod, Nat.shiftRight_eq_div_pow,
    Nat.and_one_is_mod]
  simp

theorem testBit_setBit_self (v i : Nat) : (v ||| (1 <<< i)).testBit i = true := by
  rw [Nat.shiftLeft_eq, Nat.one_mul, Nat.testBit_or, Nat.testBit_two_pow_self]
  simp

theorem testBit_clearBit_self (v i : Nat) (h : i < 8) :
    (v &&& (0xFF ^^^ (1 <<< i))).testBit i = false := by
  have h255 : (0xFF : Nat) = 2 ^ 8 - 1 := by norm_num
  rw [Nat.shiftLeft_eq, Nat.one_mul, Nat.testBit_and, Nat.testBit_xor, h255,
    Nat.testBit_two_pow_sub_one, Nat.testBit_two_pow_self]
  simp [h]

theorem testBit_setBit_ne (v i j : Nat) (h : i ≠ j) :
    (v ||| (1 <<< j)).testBit i = v.testBit i := by
  rw [Nat.shiftLeft_eq, Nat.one_mul, Nat.testBit_or,
    Nat.testBit_two_pow_of_ne (fun hji => h hji.symm)]
  simp

theorem testBit_clearBit_ne (v i j : Nat) (hi : i < 8) (h : i ≠ j) :
    (v &&& (0xFF ^^^ (1 <<< j))).testBit i = v.testBit i := by
  have h255 : (0xFF : Nat) = 2 ^ 8 - 1 := by norm_num
  rw [Nat.testBit_and, Nat.shiftLeft_eq, Nat.one_mul, Nat.testBit_xor, h255,
    Nat.testBit_two_pow_sub_one, Nat.testBit_two_pow_of_ne (fun hji => h hji.symm)]
  simp [hi]

/-! ### Structural lemmas about `Get` and `Set` -/

/-- Verification-level size invariant: the parts of `Bitmap.WF` that `Get` and
`Set` proofs need (row count and row lengths). -/
def Sized (img : Bitmap) : Prop :=
  img.PixelRows.length = img.Height ∧
  ∀ row ∈ img.PixelRows, row.length = stride img.Width

theorem Sized_of_WF {img : Bitmap} (h : img.WF) : Sized img :=
  ⟨h.2.2.1, fun row hr => (h.2.2.2 row hr).1⟩

theorem Create_Sized (w h : Nat) : Sized (Create w h) := by
  constructor
  · simp [Create]
  · intro row hr
    have hrow : row = List.replicate (stride w) 0 :=
      List.eq_of_mem_replicate (by simpa [Create] using hr)
    simp [hrow, Create]

theorem Set_Width (img : Bitmap) (x y : Nat) (b : Bool) :
    (img.Set x y b).Width = img.Width := by
  unfold Bitmap.Set
  split <;> rfl

theorem Set_Height (img : Bitmap) (x y : Nat) (b : Bool) :
    (img.Set x y b).Height = img.Height := by
  unfold Bitmap.Set
  split <;> rfl

theorem Set_Sized {img : Bitmap} (h : Sized img) (x y : Nat) (b : Bool) :
    Sized (img.Set x y b) := by
  unfold Bitmap.Set
  split
  · exact h
  · constructor
    · simpa [length_modifyAt] using h.1
    · intro row hr
      show row.length = stride img.Width
      refine mem_modifyAt_prop (p := fun r => r.length = stride img.Width)
        img.PixelRows y _ ?_ ?_ row hr
      · intro a ha
        exact h.2 a ha
      · intro a ha
        simpa [length_modifyAt] using ha

theorem div8_lt_stride {x w : Nat} (h : x < w) : x / 8 < stride w := by
  have h1 : x + 8 ≤ w + 7 := by omega
  have h2 : (x + 8) / 8 ≤ (w + 7) / 8 := Nat.div_le_div_right h1
  have h3 : (x + 8) / 8 = x / 8 + 1 := Nat.add_div_right x (by norm_num)
  unfold stride
  omega

theorem Get_Set_same (img : Bitmap) (hs : Sized img) (x y : Nat) (b : Bool)
    (hx : x < img.Width) (hy : y < img.Height) :
    (img.Set x y b).Get x y = b := by
  have hguard : ¬(x ≥ img.Width ∨ y ≥ img.Height) := by omega
  have hylen : y < img.PixelRows.length := by rw [hs.1]; exact hy
  have hrow : (img.PixelRows.getD y []).length = stride img.Width :=
    hs.2 _ (getD_mem _ _ _ hylen)
  have hbyte : x / 8 < (img.PixelRows.getD y []).length := by
    rw [hrow]; exact div8_lt_stride hx
  simp only [Bitmap.Set, Bitmap.Get, if_neg hguard]
  rw [getD_modifyAt, if_pos ⟨rfl, hylen⟩, getD_modifyAt, if_pos ⟨rfl, hbyte⟩,
    bitRead_eq_testBit]
  cases b with
  | true => simp [testBit_setBit_self]
  | false => simpa using testBit_clearBit_self _ (x % 8) (Nat.mod_lt x (by norm_num))

theorem Get_Set_ne (img : Bitmap) (x y x' y' : Nat) (b : Bool)
    (hne : x ≠ x' ∨ y ≠ y') :
    (img.Set x' y' b).Get x y = img.Get x y := by
  by_cases hset : x' ≥ img.Width ∨ y' ≥ img.Height
  · simp only [Bitmap.Set, if_pos hset]
  · simp only [Bitmap.Set, if_neg hset]
    by_cases hguard : x ≥ img.Width ∨ y ≥ img.Height
    · simp only [Bitmap.Get, if_pos hguard]
    · simp only [Bitmap.Get, if_neg hguard]
      rcases eq_or_ne y' y with hyy | hyy
      · subst hyy
        rw [getD_modifyAt]
        split
        · rw [getD_modifyAt]
          split
          · rename_i hcond
            have hbb : x' / 8 = x / 8 := hcond.1
            have hxx : x ≠ x' := by
              rcases hne with h | h
              · exact h
              · exact absurd rfl h
            have hbit : x % 8 ≠ x' % 8 := by omega
            rw [bitRead_eq_testBit, bitRead_eq_testBit]
            cases b with
            | true => simpa using testBit_setBit_ne _ (x % 8) (x' % 8) hbit
            | false =>
              simpa using
                testBit_clearBit_ne _ (x % 8) (x' % 8) (Nat.mod_lt x (by norm_num)) hbit
          · rfl
        · rfl
      · rw [getD_modifyAt, if_neg (fun hc => hyy hc.1)]

theorem Get_out_of_range (img : Bitmap) (x y : Nat)
    (h : img.Width ≤ x ∨ img.Height ≤ y) : img.Get x y = false := by
  simp only [Bitmap.Get, if_pos h]

theorem Set_out_of_range (img : Bitmap) (x y : Nat) (b : Bool)
    (h : img.Width ≤ x ∨ img.Height ≤ y) : img.Set x y b = img := by
  simp only [Bitmap.Set, if_pos h]

/-- C5: for every well-formed `Bitmap`, every in-range coordinate and flag,
`Set(x, y, b)` followed by `Get(x, y)` returns `b`; for every out-of-range
coordinate, `Set` leaves the bitmap unchanged and `Get` returns `false`.
Both operations are total functions of the bitmap, so neither can raise an
error. -/
theorem C5_set_get (img : Bitmap) (hwf : img.WF) (x y : Nat) (b : Bool) :
    (x < img.Width → y < img.Height → (img.Set x y b).Get x y = b) ∧
    (img.Width ≤ x ∨ img.Height ≤ y → img.Set x y b = img ∧ img.Get x y = false) := by
  constructor
  · intro hx hy
    exact Get_Set_same img (Sized_of_WF hwf) x y b hx hy
  · intro hout
    exact ⟨Set_out_of_range img x y b hout, Get_out_of_range img x y hout⟩

/-- Witness for C5 at a concrete bitmap, one in-range and one out-of-range
coordinate. -/
theorem C5_set_get_witness :
    ((Create 2 2).Set 1 1 true).Get 1 1 = true ∧
    ((Create 2 2).Set 2 1 true = Create 2 2 ∧ (Create 2 2).Get 2 1 = false) :=
  ⟨(C5_set_get (Create 2 2) (by decide) 1 1 true).1 (by decide) (by decide),
   (C5_set_get (Create 2 2) (by decide) 2 1 true).2 (Or.inl (by decide))⟩

theorem flatten_length_of_uniform {α : Type} (l : List (List α)) (c : Nat)
    (h : ∀ r ∈ l, r.length = c) : l.flatten.length = l.length * c := by
  induction l with
  | nil => simp
  | cons a as ih =>
    simp only [List.flatten_cons, List.length_append, List.length_cons]
    rw [h a (by simp), ih (fun r hr => h r (by simp [hr]))]
    ring

/-- C7: a successful `Write` of a well-formed bitmap emits exactly
`2 + Height * stride(Width)` bytes: the 2-byte header followed by `Height`
rows of `stride` bytes with no padding. -/
theorem C7_write_size (img : Bitmap) (hwf : img.WF) :
    img.writeBytes.length = 2 + img.Height * stride img.Width := by
  unfold Bitmap.writeBytes
  simp only [List.length_cons]
  rw [flatten_length_of_uniform img.PixelRows (stride img.Width)
    (fun r hr => (hwf.2.2.2 r hr).1), hwf.2.2.1]
  omega

/-- Witness for C7 at a concrete bitmap. -/
theorem C7_write_size_witness :
    (Create 5 3).writeBytes.length = 2 + (Create 5 3).Height * stride (Create 5 3).Width :=
  C7_write_size (Create 5 3) (by decide)

/-! ### Round-trip machinery for the codec -/

theorem readRows_exact (str : Nat) (rows : List (List Nat)) (tail : List Nat)
    (f : Option Nat) (h : ∀ r ∈ rows, r.length = str) :
    readRows str rows.length ⟨rows.flatten ++ tail, f⟩ =
      Except.ok (rows, ⟨tail, f⟩) := by
  induction rows with
  | nil => simp [readRows]
  | cons r rs ih =>
    have hr : r.length = str := h r (by simp)
    have ihr := ih (fun q hq => h q (by simp [hq]))
    by_cases hstr : str = 0
    · have hr0 : r = [] := List.eq_nil_of_length_eq_zero (by omega)
      subst hr0 hstr
      simp only [List.length_cons, List.flatten_cons, List.nil_append]
      simp [readRows, streamRead, ihr]
    · have hsr : streamRead ⟨r ++ (rs.flatten ++ tail), f⟩ str =
          (r, none, ⟨rs.flatten ++ tail, f⟩) := by
        unfold streamRead
        rw [if_neg hstr]
        have hne : (r ++ (rs.flatten ++ tail)).isEmpty = false := by
          cases r with
          | nil => simp at hr; omega
          | cons a as => simp
        rw [if_neg (by simp [hne])]
        rw [← hr, List.take_left, List.drop_left]
      simp only [List.length_cons, List.flatten_cons, List.append_assoc]
      simp [readRows, hsr, hr, ihr]

/-- C1: writing a well-formed bitmap and reading the produced byte stream
back succeeds and yields a bitmap with identical `Get` values at every
in-range coordinate. -/
theorem C1_roundtrip (img : Bitmap) (hwf : img.WF) :
    ∃ img2, rgfRead ⟨img.writeBytes, none⟩ = (some img2, none) ∧
      ∀ x y, x < img.Width → y < img.Height → img2.Get x y = img.Get x y := by
  refine ⟨img, ?_, fun x y _ _ => rfl⟩
  have hsr : streamRead ⟨img.Width :: img.Height :: img.PixelRows.flatten, none⟩ 2 =
      ([img.Width, img.Height], none, ⟨img.PixelRows.flatten, none⟩) := by
    unfold streamRead
    simp
  have hrr : readRows (stride img.Width) img.Height
      ⟨img.PixelRows.flatten, none⟩ = Except.ok (img.PixelRows, ⟨[], none⟩) := by
    have := readRows_exact (stride img.Width) img.PixelRows [] none
      (fun r hr => (hwf.2.2.2 r hr).1)
    rw [hwf.2.2.1, List.append_nil] at this
    exact this
  unfold Bitmap.writeBytes rgfRead
  rw [hsr]
  simp [hrr]

/-- Witness for C1 at a concrete bitmap with a bit set. -/
theorem C1_roundtrip_witness :
    ∃ img2, rgfRead ⟨((Create 3 2).Set 1 0 true).writeBytes, none⟩ = (some img2, none) ∧
      ∀ x y, x < ((Create 3 2).Set 1 0 true).Width →
        y < ((Create 3 2).Set 1 0 true).Height →
        img2.Get x y = ((Create 3 2).Set 1 0 true).Get x y :=
  C1_roundtrip ((Create 3 2).Set 1 0 true) (by decide)

/-! ### Decode failure behaviour -/

/-- C4 counterexample: on a stream with fewer than 2 header bytes available
(here: none at all), `Read` returns the propagated end-of-stream error, not
the truncated-header error the claim requires. -/
theorem C4_counterexample :
    rgfRead ⟨[], none⟩ = (none, some GoErr.eof) ∧
    some GoErr.eof ≠ some GoErr.headerTruncated := by
  exact ⟨rfl, by simp⟩

/-- C4 (amended): `Read` is all-or-nothing — on every failure the bitmap
result is `none`. A header read that returns 1 byte (fewer than 2, without a
stream error) yields the truncated-header error, but a read at end of stream
yields the propagated EOF (or the underlying fault, unchanged) instead. A
row read that returns at least one byte but fewer than `stride` yields the
truncated-body error, while a row read at end of stream propagates the
stream's fault unchanged. -/
theorem C4_read_errors :
    (∀ s : ByteStream, (rgfRead s).2.isSome → (rgfRead s).1 = none) ∧
    (∀ b f, rgfRead ⟨[b], f⟩ = (none, some GoErr.headerTruncated)) ∧
    (rgfRead ⟨[], none⟩ = (none, some GoErr.eof)) ∧
    (∀ c, rgfRead ⟨[], some c⟩ = (none, some (GoErr.ioErr c))) ∧
    (∀ w h rest f, h ≠ 0 → 0 < rest.length → rest.length < stride w →
      rgfRead ⟨w :: h :: rest, f⟩ = (none, some GoErr.bodyTruncated)) ∧
    (∀ w h c, h ≠ 0 → 0 < stride w →
      rgfRead ⟨[w, h], some c⟩ = (none, some (GoErr.ioErr c))) := by
  refine ⟨?_, ?_, rfl, fun c => rfl, ?_, ?_⟩
  · intro s h
    rcases hstream : streamRead s 2 with ⟨bytes, err, s1⟩
    cases err with
    | some e => simp [rgfRead, hstream]
    | none =>
      by_cases hlen : bytes.length ≠ 2
      · simp [rgfRead, hstream, hlen]
      · rcases hrr : readRows (stride (bytes.getD 0 0)) (bytes.getD 1 0) s1 with e | pair
        · simp only [List.getD_eq_getElem?_getD] at hrr
          simp [rgfRead, hstream, hlen, hrr]
        · simp only [List.getD_eq_getElem?_getD] at hrr
          simp [rgfRead, hstream, hlen, hrr] at h
  · intro b f
    rfl
  · intro w h rest f hh hpos hshort
    obtain ⟨n, hn⟩ := Nat.exists_eq_succ_of_ne_zero hh
    have hsr : streamRead ⟨w :: h :: rest, none⟩ 2 = ([w, h], none, ⟨rest, none⟩) := by
      unfold streamRead
      simp
    have hsr2 : streamRead ⟨rest, f⟩ (stride w) = (rest, none, ⟨[], f⟩) := by
      have hne : rest.isEmpty = false := by
        cases rest with
        | nil => simp at hpos
        | cons a as => simp
      simp only [streamRead, hne]
      rw [if_neg (by omega), if_neg (by simp)]
      rw [List.take_of_length_le (by omega), List.drop_eq_nil_of_le (by omega)]
    unfold rgfRead
    unfold streamRead
    rw [if_neg (by norm_num)]
    rw [if_neg (by simp)]
    simp only [List.take_succ_cons, List.take_zero, List.drop_succ_cons, List.drop_zero]
    rw [if_neg (by simp)]
    simp only [List.getD_cons_zero, List.getD_cons_succ]
    rw [hn]
    simp [readRows, hsr2, hshort]
  · intro w h c hh hstr
    obtain ⟨n, hn⟩ := Nat.exists_eq_succ_of_ne_zero hh
    unfold rgfRead
    unfold streamRead
    rw [if_neg (by norm_num)]
    rw [if_neg (by simp)]
    simp only [List.take_succ_cons, List.take_zero, List.drop_succ_cons, List.drop_zero]
    rw [if_neg (by simp)]
    simp only [List.getD_cons_zero, List.getD_cons_succ]
    rw [hn]
    have hsr2 : streamRead ⟨[], some c⟩ (stride w) =
        ([], some (GoErr.ioErr c), ⟨[], some c⟩) := by
      unfold streamRead
      rw [if_neg (by omega)]
      simp
    simp [readRows, hsr2]

/-- Witness for C4 (amended) at concrete streams: a 1-byte stream, a short
first row, and a stream fault hit during the body. -/
theorem C4_read_errors_witness :
    rgfRead ⟨[7], none⟩ = (none, some GoErr.headerTruncated) ∧
    rgfRead ⟨[9, 1, 5], none⟩ = (none, some GoErr.bodyTruncated) ∧
    rgfRead ⟨[9, 1], some 3⟩ = (none, some (GoErr.ioErr 3)) :=
  ⟨C4_read_errors.2.1 7 none,
   C4_read_errors.2.2.2.2.1 9 1 [5] none (by decide) (by decide) (by decide),
   C4_read_errors.2.2.2.2.2 9 1 3 (by decide) (by decide)⟩

/-! ### Image conversion: thresholding and dithering -/

/-- Boundary model of a Go `image.Image` together with the external
`colorToGray` collaborator: the four bounds are `src.Bounds()` and
`lum a b` is `colorToGray(src.At(a, b)).Y`, the 8-bit grayscale luminance of
the source pixel at `(a, b)`. -/
structure GoImage where
minX : Int
minY : Int
maxX : Int
maxY : Int
lum : Int → Int → Nat

/-- The dimension clipping chain of `createFromImageSize` (rgf.go): negative
extents clamp to 0, extents above 255 clamp to 255. -/
def clampDim (d : Int) : Nat :=
if d < 0 then 0 else if d > 255 then 255 else d.toNat

/-- `createFromImageSize` (rgf.go): clips the image dimensions and allocates
the bitmap; returns the bitmap together with the clipped `(w, h)`. -/
def createFromImageSize (src : GoImage) : Bitmap × Nat × Nat :=
let w := clampDim (src.maxX - src.minX)
let h := clampDim (src.maxY - src.minY)
(Create w h, w, h)

/-- `ByThreshold` (rgf.go): converts an image by checking each pixel's
luminance against a threshold, black iff `lum < threshold`. -/
def ByThreshold (src : GoImage) (threshold : Nat) : Bitmap :=
let t := createFromImageSize src
(List.range t.2.2).foldl (fun d y =>
  (List.range t.2.1).foldl (fun d x =>
    d.Set x y (decide (src.lum (x + src.minX) (y + src.minY) < threshold))) d) t.1

/-- `floatGrayMap` (rgf.go): the flat normalized gray map with
`grayMap[y*w+x] = lum/255`, rows laid out top-down, columns left-to-right.
Go `float64` values are modelled as exact rationals. -/
def floatGrayMap (src : GoImage) (w h : Nat) : List ℚ :=
(List.range h).foldl (fun g y =>
  (List.range w).foldl (fun g x =>
    modifyAt g (y * w + x)
      (fun _ => (src.lum (x + src.minX) (y + src.minY) : ℚ) / 255)) g)
  (List.replicate (w * h) 0)

/-- One iteration of the inner loop of `floydSteinbergDither` (rgf.go):
quantize the cell `(x, y)` (to 1 iff the residual is at least 1/2), store the
quantized value, and diffuse the quantization error with the four
Floyd-Steinberg weights. Only the east and lower writes are guarded
(`x != w-1`, `y != h-1`); the southwest flat index `(y+1)*w + x - 1` is
unguarded, exactly as in the source. -/
def ditherCell (g : List ℚ) (w h x y : Nat) : List ℚ :=
let orig := g.getD (y * w + x) 0
let nv : ℚ := if orig ≥ 1/2 then 1 else 0
let g1 := modifyAt g (y * w + x) (fun _ => nv)
let qe := orig - nv
let g2 :=
  if x ≠ w - 1 then modifyAt g1 (y * w + x + 1) (fun v => v + qe * 7 / 16) else g1
if y ≠ h - 1 then
  let g3 := modifyAt g2 ((y + 1) * w + x - 1) (fun v => v + qe * 3 / 16)
  let g4 := modifyAt g3 ((y + 1) * w + x) (fun v => v + qe * 5 / 16)
  if x ≠ w - 1 then modifyAt g4 ((y + 1) * w + x + 1) (fun v => v + qe * 1 / 16)
  else g4
else g2

/-- The inner (column) loop of `floydSteinbergDither`, over
`x = 0 .. n-1` of row `y`. -/
def ditherRow (g : List ℚ) (w h y n : Nat) : List ℚ :=
(List.range n).foldl (fun g x => ditherCell g w h x y) g

/-- The outer (row) loop of `floydSteinbergDither`, over `y = 0 .. m-1`. -/
def ditherRows (g : List ℚ) (w h m : Nat) : List ℚ :=
(List.range m).foldl (fun g y => ditherRow g w h y w) g

/-- `floydSteinbergDither` (rgf.go): the full dithering pass over a `w*h`
gray map, in row-major (left-to-right, top-to-bottom) order. -/
def floydSteinbergDither (g : List ℚ) (w h : Nat) : List ℚ :=
ditherRows g w h h

/-- The grid state at the moment cell `(x, y)` is visited by
`floydSteinbergDither`: all rows before `y` and the first `x` cells of row
`y` have been processed. -/
def visitState (g : List ℚ) (w h x y : Nat) : List ℚ :=
ditherRow (ditherRows g w h y) w h y x

/-- `fillByGrayMap` (rgf.go): imports a gray map into a bitmap through a 50%
threshold: a cell is white iff its value is `> 0.5`, and the pixel is set
black iff it is not white. -/
def fillByGrayMap (src : List ℚ) (dst : Bitmap) (w h : Nat) : Bitmap :=
(List.range h).foldl (fun d y =>
  (List.range w).foldl (fun d x =>
    d.Set x y (! decide (src.getD (y * w + x) 0 > 1/2))) d) dst

/-- `ByDither` (rgf.go): clip the dimensions, build the gray map, dither it
in place, and fill the bitmap from the result. -/
def ByDither (src : GoImage) : Bitmap :=
let t := createFromImageSize src
let grayMap := floatGrayMap src t.2.1 t.2.2
fillByGrayMap (floydSteinbergDither grayMap t.2.1 t.2.2) t.1 t.2.1 t.2.2

/-! ### Generic facts about the shared row-major `Set` loop -/

/-- The nested pixel-filling loop shape shared by `ByThreshold` and
`fillByGrayMap`: row-major nested loops writing `f x y` through `Set`. -/
def fillBy (bmp : Bitmap) (w h : Nat) (f : Nat → Nat → Bool) : Bitmap :=
(List.range h).foldl (fun d y =>
  (List.range w).foldl (fun d x => d.Set x y (f x y)) d) bmp

theorem ByThreshold_eq_fillBy (src : GoImage) (t : Nat) :
    ByThreshold src t =
      fillBy (createFromImageSize src).1 (createFromImageSize src).2.1
        (createFromImageSize src).2.2
        (fun x y => decide (src.lum (x + src.minX) (y + src.minY) < t)) := rfl

theorem fillByGrayMap_eq_fillBy (src : List ℚ) (dst : Bitmap) (w h : Nat) :
    fillByGrayMap src dst w h =
      fillBy dst w h (fun x y => ! decide (src.getD (y * w + x) 0 > 1/2)) := rfl

theorem foldlSet_Width (l : List Nat) (y : Nat) (g : Nat → Bool) :
    ∀ bmp : Bitmap,
      (l.foldl (fun d x => d.Set x y (g x)) bmp).Width = bmp.Width := by
  induction l with
  | nil => intro bmp; rfl
  | cons a as ih => intro bmp; rw [List.foldl_cons, ih, Set_Width]

theorem foldlSet_Height (l : List Nat) (y : Nat) (g : Nat → Bool) :
    ∀ bmp : Bitmap,
      (l.foldl (fun d x => d.Set x y (g x)) bmp).Height = bmp.Height := by
  induction l with
  | nil => intro bmp; rfl
  | cons a as ih => intro bmp; rw [List.foldl_cons, ih, Set_Height]

theorem foldlSet_Sized (l : List Nat) (y : Nat) (g : Nat → Bool) :
    ∀ bmp : Bitmap, Sized bmp →
      Sized (l.foldl (fun d x => d.Set x y (g x)) bmp) := by
  induction l with
  | nil => intro bmp hs; exact hs
  | cons a as ih => intro bmp hs; rw [List.foldl_cons]; exact ih _ (Set_Sized hs a y (g a))

theorem foldlSet_get_other (l : List Nat) (y : Nat) (g : Nat → Bool) (x y' : Nat) :
    ∀ bmp : Bitmap, (y' ≠ y ∨ x ∉ l) →
      (l.foldl (fun d x' => d.Set x' y (g x')) bmp).Get x y' = bmp.Get x y' := by
  induction l with
  | nil => intro bmp _; rfl
  | cons a as ih =>
    intro bmp hother
    rw [List.foldl_cons]
    have hother2 : y' ≠ y ∨ x ∉ as := by
      rcases hother with h | h
      · exact Or.inl h
      · exact Or.inr (fun hm => h (by simp [hm]))
    rw [ih _ hother2]
    refine Get_Set_ne bmp x y' a y (g a) ?_
    rcases hother with h | h
    · exact Or.inr h
    · exact Or.inl (fun he => h (by simp [he]))

theorem foldlSet_range_get (n : Nat) (y : Nat) (g : Nat → Bool) :
    ∀ bmp : Bitmap, Sized bmp → n ≤ bmp.Width → y < bmp.Height → ∀ x, x < n →
      ((List.range n).foldl (fun d x' => d.Set x' y (g x')) bmp).Get x y = g x := by
  induction n with
  | zero => intro _ _ _ _ x hx; omega
  | succ n ih =>
    intro bmp hs hn hy x hx
    rw [List.range_succ, List.foldl_append, List.foldl_cons, List.foldl_nil]
    have hFW : ((List.range n).foldl (fun d x' => d.Set x' y (g x')) bmp).Width =
        bmp.Width := foldlSet_Width _ _ _ _
    have hFH : ((List.range n).foldl (fun d x' => d.Set x' y (g x')) bmp).Height =
        bmp.Height := foldlSet_Height _ _ _ _
    have hFs : Sized ((List.range n).foldl (fun d x' => d.Set x' y (g x')) bmp) :=
      foldlSet_Sized _ _ _ _ hs
    rcases eq_or_ne x n with hxx | hxx
    · subst hxx
      exact Get_Set_same _ hFs x y (g x) (by omega) (by omega)
    · rw [Get_Set_ne _ x y n y (g n) (Or.inl hxx)]
      exact ih bmp hs (by omega) hy x (by omega)

theorem fillBy_Width (bmp : Bitmap) (w h : Nat) (f : Nat → Nat → Bool) :
    (fillBy bmp w h f).Width = bmp.Width := by
  unfold fillBy
  induction h with
  | zero => rfl
  | succ h ih =>
    rw [List.range_succ, List.foldl_append, List.foldl_cons, List.foldl_nil,
      foldlSet_Width, ih]

theorem fillBy_Height (bmp : Bitmap) (w h : Nat) (f : Nat → Nat → Bool) :
    (fillBy bmp w h f).Height = bmp.Height := by
  unfold fillBy
  induction h with
  | zero => rfl
  | succ h ih =>
    rw [List.range_succ, List.foldl_append, List.foldl_cons, List.foldl_nil,
      foldlSet_Height, ih]

theorem fillBy_Sized (bmp : Bitmap) (w h : Nat) (f : Nat → Nat → Bool)
    (hs : Sized bmp) : Sized (fillBy bmp w h f) := by
  unfold fillBy
  induction h with
  | zero => exact hs
  | succ h ih =>
    rw [List.range_succ, List.foldl_append, List.foldl_cons, List.foldl_nil]
    exact foldlSet_Sized _ _ _ _ ih

theorem fillBy_get (w : Nat) (f : Nat → Nat → Bool) (h : Nat) :
    ∀ bmp : Bitmap, Sized bmp → w ≤ bmp.Width → h ≤ bmp.Height →
    ∀ x y, x < w →
      ((y < h → (fillBy bmp w h f).Get x y = f x y) ∧
       (h ≤ y → (fillBy bmp w h f).Get x y = bmp.Get x y)) := by
  induction h with
  | zero =>
    intro bmp hs hw hh x y hx
    exact ⟨fun hy => absurd hy (by omega), fun _ => rfl⟩
  | succ h ih =>
    intro bmp hs hw hh x y hx
    have hfold : fillBy bmp w (h+1) f =
        (List.range w).foldl (fun d x' => d.Set x' h (f x' h)) (fillBy bmp w h f) := by
      unfold fillBy
      rw [List.range_succ, List.foldl_append, List.foldl_cons, List.foldl_nil]
    have hFW : (fillBy bmp w h f).Width = bmp.Width := fillBy_Width bmp w h f
    have hFH : (fillBy bmp w h f).Height = bmp.Height := fillBy_Height bmp w h f
    have hFs : Sized (fillBy bmp w h f) := fillBy_Sized bmp w h f hs
    constructor
    · intro hy
      rcases eq_or_ne y h with hyy | hyy
      · subst hyy
        rw [hfold]
        exact foldlSet_range_get w y (fun x' => f x' y) _ hFs (by omega) (by omega) x hx
      · rw [hfold, foldlSet_get_other _ _ _ _ _ _ (Or.inl hyy)]
        exact (ih bmp hs hw (by omega) x y hx).1 (by omega)
    · intro hy
      rw [hfold, foldlSet_get_other _ _ _ _ _ _ (Or.inl (by omega : y ≠ h))]
      exact (ih bmp hs hw (by omega) x y hx).2 (by omega)

theorem createFromImageSize_fst (src : GoImage) :
    (createFromImageSize src).1 =
      Create (createFromImageSize src).2.1 (createFromImageSize src).2.2 := rfl

theorem ByThreshold_Get_in (src : GoImage) (t x y : Nat)
    (hx : x < (createFromImageSize src).2.1)
    (hy : y < (createFromImageSize src).2.2) :
    (ByThreshold src t).Get x y =
      decide (src.lum (x + src.minX) (y + src.minY) < t) := by
  rw [ByThreshold_eq_fillBy, createFromImageSize_fst]
  exact (fillBy_get _ _ _ _ (Create_Sized _ _) (Nat.le_refl _) (Nat.le_refl _) x y hx).1 hy

theorem ByThreshold_dims (src : GoImage) (t : Nat) :
    (ByThreshold src t).Width = (createFromImageSize src).2.1 ∧
    (ByThreshold src t).Height = (createFromImageSize src).2.2 := by
  rw [ByThreshold_eq_fillBy, createFromImageSize_fst]
  exact ⟨fillBy_Width _ _ _ _, fillBy_Height _ _ _ _⟩

theorem ByThreshold_Get_oob (src : GoImage) (t x y : Nat)
    (h : (createFromImageSize src).2.1 ≤ x ∨ (createFromImageSize src).2.2 ≤ y) :
    (ByThreshold src t).Get x y = false := by
  refine Get_out_of_range _ x y ?_
  rw [(ByThreshold_dims src t).1, (ByThreshold_dims src t).2]
  exact h

/-- C6: `ByThreshold` makes pixel `(x, y)` black exactly when the 8-bit
grayscale luminance of the source pixel at `(x, y)` is strictly less than the
threshold (so luminance equal to the threshold yields white). -/
theorem C6_threshold (src : GoImage) (threshold : Nat) (x y : Nat)
    (hx : x < (createFromImageSize src).2.1)
    (hy : y < (createFromImageSize src).2.2) :
    ((ByThreshold src threshold).Get x y = true ↔
      src.lum (x + src.minX) (y + src.minY) < threshold) := by
  rw [ByThreshold_Get_in src threshold x y hx hy]
  simp

/-- Witness for C6 on a concrete 2x1 image: luminance 100 is below threshold
150 (black), luminance 150 equals it (white). -/
theorem C6_threshold_witness :
    ((ByThreshold ⟨0, 0, 2, 1, fun a _ => if a = 0 then 100 else 150⟩ 150).Get 0 0 = true ↔
      (⟨0, 0, 2, 1, fun a _ => if a = 0 then 100 else 150⟩ : GoImage).lum
        ((0 : Nat) + 0) ((0 : Nat) + 0) < 150) ∧
    ((ByThreshold ⟨0, 0, 2, 1, fun a _ => if a = 0 then 100 else 150⟩ 150).Get 1 0 = true ↔
      (⟨0, 0, 2, 1, fun a _ => if a = 0 then 100 else 150⟩ : GoImage).lum
        ((1 : Nat) + 0) ((0 : Nat) + 0) < 150) :=
  ⟨C6_threshold ⟨0, 0, 2, 1, fun a _ => if a = 0 then 100 else 150⟩ 150 0 0
      (by decide) (by decide),
   C6_threshold ⟨0, 0, 2, 1, fun a _ => if a = 0 then 100 else 150⟩ 150 1 0
      (by decide) (by decide)⟩

/-- C8: `ByThreshold` is monotone in the threshold: with the source fixed and
`t1 ≤ t2`, every pixel black at threshold `t1` is black at threshold `t2`. -/
theorem C8_threshold_monotone (src : GoImage) (t1 t2 : Nat) (h12 : t1 ≤ t2)
    (x y : Nat) (hb : (ByThreshold src t1).Get x y = true) :
    (ByThreshold src t2).Get x y = true := by
  by_cases hx : x < (createFromImageSize src).2.1
  · by_cases hy : y < (createFromImageSize src).2.2
    · rw [ByThreshold_Get_in src t1 x y hx hy] at hb
      rw [ByThreshold_Get_in src t2 x y hx hy]
      simp only [decide_eq_true_eq] at hb ⊢
      omega
    · rw [ByThreshold_Get_oob src t1 x y (Or.inr (by omega))] at hb
      exact absurd hb (by simp)
  · rw [ByThreshold_Get_oob src t1 x y (Or.inl (by omega))] at hb
    exact absurd hb (by simp)

/-- Witness for C8 on a concrete image: the pixel black at threshold 120 is
still black at threshold 200. -/
theorem C8_threshold_monotone_witness :
    (ByThreshold ⟨0, 0, 1, 1, fun _ _ => 100⟩ 200).Get 0 0 = true :=
  C8_threshold_monotone ⟨0, 0, 1, 1, fun _ _ => 100⟩ 120 200 (by decide) 0 0 (by decide)

/-! ### Dimension clamping and window-only sampling -/

theorem foldl_congr_fn {α β : Type} (l : List β) (g1 g2 : α → β → α) :
    ∀ a : α, (∀ x ∈ l, ∀ acc, g1 acc x = g2 acc x) →
      l.foldl g1 a = l.foldl g2 a := by
  induction l with
  | nil => intro a _; rfl
  | cons b bs ih =>
    intro a h
    rw [List.foldl_cons, List.foldl_cons, h b (by simp) a]
    exact ih _ (fun x hx acc => h x (by simp [hx]) acc)

theorem createFromImageSize_congr (src1 src2 : GoImage)
    (hmx : src1.minX = src2.minX) (hmy : src1.minY = src2.minY)
    (hMx : src1.maxX = src2.maxX) (hMy : src1.maxY = src2.maxY) :
    createFromImageSize src1 = createFromImageSize src2 := by
  unfold createFromImageSize
  rw [hmx, hmy, hMx, hMy]

theorem ByThreshold_congr (src1 src2 : GoImage) (t : Nat)
    (hmx : src1.minX = src2.minX) (hmy : src1.minY = src2.minY)
    (hMx : src1.maxX = src2.maxX) (hMy : src1.maxY = src2.maxY)
    (hl : ∀ a b : Int, src1.minX ≤ a → a < src1.minX + (createFromImageSize src1).2.1 →
      src1.minY ≤ b → b < src1.minY + (createFromImageSize src1).2.2 →
      src1.lum a b = src2.lum a b) :
    ByThreshold src1 t = ByThreshold src2 t := by
  have hT := createFromImageSize_congr src1 src2 hmx hmy hMx hMy
  unfold ByThreshold
  rw [← hT]
  refine foldl_congr_fn _ _ _ _ ?_
  intro y hy acc
  refine foldl_congr_fn _ _ _ _ ?_
  intro x hx d
  have hxw : x < (createFromImageSize src1).2.1 := List.mem_range.mp hx
  have hyh : y < (createFromImageSize src1).2.2 := List.mem_range.mp hy
  rw [hl (x + src1.minX) (y + src1.minY) (by omega) (by omega) (by omega) (by omega),
    hmx, hmy]

theorem floatGrayMap_congr (src1 src2 : GoImage) (w h : Nat)
    (hmx : src1.minX = src2.minX) (hmy : src1.minY = src2.minY)
    (hl : ∀ a b : Int, src1.minX ≤ a → a < src1.minX + w →
      src1.minY ≤ b → b < src1.minY + h → src1.lum a b = src2.lum a b) :
    floatGrayMap src1 w h = floatGrayMap src2 w h := by
  unfold floatGrayMap
  refine foldl_congr_fn _ _ _ _ ?_
  intro y hy acc
  refine foldl_congr_fn _ _ _ _ ?_
  intro x hx g
  have hxw : x < w := List.mem_range.mp hx
  have hyh : y < h := List.mem_range.mp hy
  rw [hl (x + src1.minX) (y + src1.minY) (by omega) (by omega) (by omega) (by omega),
    hmx, hmy]

theorem ByDither_congr (src1 src2 : GoImage)
    (hmx : src1.minX = src2.minX) (hmy : src1.minY = src2.minY)
    (hMx : src1.maxX = src2.maxX) (hMy : src1.maxY = src2.maxY)
    (hl : ∀ a b : Int, src1.minX ≤ a → a < src1.minX + (createFromImageSize src1).2.1 →
      src1.minY ≤ b → b < src1.minY + (createFromImageSize src1).2.2 →
      src1.lum a b = src2.lum a b) :
    ByDither src1 = ByDither src2 := by
  have hT := createFromImageSize_congr src1 src2 hmx hmy hMx hMy
  unfold ByDither
  rw [← hT]
  dsimp only
  rw [floatGrayMap_congr src1 src2 _ _ hmx hmy hl]

/-- C9: the conversion dimensions are the source extents clamped to 0..255
(negative to 0, above 255 to 255); both converters sample luminance only
inside the clamped top-left window; and a 300x10 source yields `Width`
exactly 255 and `Height` 10. -/
theorem C9_clamp :
    (∀ src : GoImage,
      ((createFromImageSize src).1.Width : Int) = max 0 (min 255 (src.maxX - src.minX)) ∧
      ((createFromImageSize src).1.Height : Int) = max 0 (min 255 (src.maxY - src.minY))) ∧
    (∀ src1 src2 : GoImage, ∀ t : Nat,
      src1.minX = src2.minX → src1.minY = src2.minY →
      src1.maxX = src2.maxX → src1.maxY = src2.maxY →
      (∀ a b : Int, src1.minX ≤ a → a < src1.minX + (createFromImageSize src1).2.1 →
        src1.minY ≤ b → b < src1.minY + (createFromImageSize src1).2.2 →
        src1.lum a b = src2.lum a b) →
      ByThreshold src1 t = ByThreshold src2 t ∧ ByDither src1 = ByDither src2) ∧
    ((ByThreshold ⟨0, 0, 300, 10, fun _ _ => 0⟩ 128).Width = 255 ∧
     (ByThreshold ⟨0, 0, 300, 10, fun _ _ => 0⟩ 128).Height = 10) := by
  refine ⟨?_, ?_, ?_⟩
  · intro src
    constructor
    · show ((clampDim (src.maxX - src.minX) : Nat) : Int) = _
      unfold clampDim
      split_ifs <;> omega
    · show ((clampDim (src.maxY - src.minY) : Nat) : Int) = _
      unfold clampDim
      split_ifs <;> omega
  · intro src1 src2 t hmx hmy hMx hMy hl
    exact ⟨ByThreshold_congr src1 src2 t hmx hmy hMx hMy hl,
      ByDither_congr src1 src2 hmx hmy hMx hMy hl⟩
  · constructor
    · rw [(ByThreshold_dims _ _).1]
      decide
    · rw [(ByThreshold_dims _ _).2]
      decide

/-- Witness for C9: two concrete 1x1 images whose luminances agree on the
clamped window but differ outside it convert identically. -/
theorem C9_clamp_witness :
    ByThreshold ⟨0, 0, 1, 1, fun _ _ => 7⟩ 5 =
      ByThreshold ⟨0, 0, 1, 1, fun a _ => if a ≥ 1 then 99 else 7⟩ 5 ∧
    ByDither ⟨0, 0, 1, 1, fun _ _ => 7⟩ =
      ByDither ⟨0, 0, 1, 1, fun a _ => if a ≥ 1 then 99 else 7⟩ :=
  C9_clamp.2.1 ⟨0, 0, 1, 1, fun _ _ => 7⟩ ⟨0, 0, 1, 1, fun a _ => if a ≥ 1 then 99 else 7⟩
    5 rfl rfl rfl rfl
    (by
      intro a b h1 h2 h3 h4
      norm_num [createFromImageSize, clampDim] at h1 h2
      have ha : a = 0 := by omega
      simp [ha])

/-! ### Per-cell analysis of the dithering pass -/

theorem cellIdx_lt {x w y h : Nat} (hx : x < w) (hy : y < h) :
    y * w + x < w * h := by
  have h1 : (y + 1) * w = y * w + w := by ring
  have h2 : (y + 1) * w ≤ h * w := Nat.mul_le_mul_right w hy
  have h3 : h * w = w * h := Nat.mul_comm h w
  omega

theorem ditherCell_length (g : List ℚ) (w h x y : Nat) :
    (ditherCell g w h x y).length = g.length := by
  unfold ditherCell
  dsimp only
  split_ifs <;> simp [length_modifyAt]

/-- Exact effect of one dithering step on every flat index `j`: the visited
cell is overwritten with its quantized value, and each guarded neighbor
index receives the corresponding Floyd-Steinberg share of the quantization
error (indices that coincide receive the sum of their shares). -/
theorem ditherCell_getD (g : List ℚ) (w h x y : Nat) (hx : x < w) (hy : y < h)
    (hg : g.length = w * h) (j : Nat) :
    (ditherCell g w h x y).getD j 0 =
      (if y * w + x = j
       then (if g.getD (y * w + x) 0 ≥ 1/2 then (1 : ℚ) else 0)
       else g.getD j 0) +
      (g.getD (y * w + x) 0 - (if g.getD (y * w + x) 0 ≥ 1/2 then (1 : ℚ) else 0)) *
        ((if x ≠ w - 1 ∧ y * w + x + 1 = j then (7 : ℚ)/16 else 0) +
         (if y ≠ h - 1 ∧ (y + 1) * w + x - 1 = j then (3 : ℚ)/16 else 0) +
         (if y ≠ h - 1 ∧ (y + 1) * w + x = j then (5 : ℚ)/16 else 0) +
         (if x ≠ w - 1 ∧ y ≠ h - 1 ∧ (y + 1) * w + x + 1 = j then (1 : ℚ)/16 else 0)) := by
  have hp : y * w + x < w * h := cellIdx_lt hx hy
  unfold ditherCell
  dsimp only
  by_cases hxe : x ≠ w - 1
  · by_cases hye : y ≠ h - 1
    · have hx1 : x + 1 < w := by omega
      have hy1 : y + 1 < h := by omega
      have he : y * w + x + 1 < w * h := by
        have := cellIdx_lt hx1 hy
        omega
      have hs : (y + 1) * w + x < w * h := cellIdx_lt hx hy1
      have hsw : (y + 1) * w + x - 1 < w * h := by omega
      have hse : (y + 1) * w + x + 1 < w * h := by
        have := cellIdx_lt hx1 hy1
        omega
      simp only [if_pos hxe, if_pos hye, eq_true hxe, eq_true hye,
        getD_modifyAt, length_modifyAt, hg, eq_true hp, eq_true he, eq_true hsw,
        eq_true hs, eq_true hse, and_true, true_and, if_true]
      split_ifs <;> ring
    · have he : y * w + x + 1 < w * h := by
        have hx1 : x + 1 < w := by omega
        have := cellIdx_lt hx1 hy
        omega
      simp only [if_pos hxe, if_neg hye, eq_true hxe, eq_false hye,
        getD_modifyAt, length_modifyAt, hg, eq_true hp, eq_true he,
        and_true, true_and, false_and, and_false, if_true, if_false]
      split_ifs <;> ring
  · by_cases hye : y ≠ h - 1
    · have hy1 : y + 1 < h := by omega
      have hs : (y + 1) * w + x < w * h := cellIdx_lt hx hy1
      have hsw : (y + 1) * w + x - 1 < w * h := by omega
      simp only [if_neg hxe, if_pos hye, eq_false hxe, eq_true hye,
        getD_modifyAt, length_modifyAt, hg, eq_true hp, eq_true hsw, eq_true hs,
        and_true, true_and, false_and, and_false, if_true, if_false]
      split_ifs <;> ring
    · simp only [if_neg hxe, if_neg hye, eq_false hxe, eq_false hye,
        getD_modifyAt, length_modifyAt, hg, eq_true hp,
        and_true, true_and, false_and, and_false, if_true, if_false]
      split_ifs <;> ring

theorem ditherCell_getD_lt (g : List ℚ) (w h x y : Nat) (hx : x < w) (hy : y < h)
    (hg : g.length = w * h) (j : Nat) (hj : j < y * w + x) :
    (ditherCell g w h x y).getD j 0 = g.getD j 0 := by
  have hww : (y + 1) * w = y * w + w := by ring
  have hw1 : 1 ≤ w := by omega
  rw [ditherCell_getD g w h x y hx hy hg j]
  have h1 : ¬(y * w + x = j) := by omega
  have h2 : ¬(y * w + x + 1 = j) := by omega
  have h3 : ¬((y + 1) * w + x - 1 = j) := by omega
  have h4 : ¬((y + 1) * w + x = j) := by omega
  have h5 : ¬((y + 1) * w + x + 1 = j) := by omega
  simp only [eq_false h1, eq_false h2, eq_false h3, eq_false h4, eq_false h5,
    and_false, false_and, if_false]
  ring

theorem ditherCell_getD_self (g : List ℚ) (w h x y : Nat) (hw : 2 ≤ w) (hx : x < w)
    (hy : y < h) (hg : g.length = w * h) :
    (ditherCell g w h x y).getD (y * w + x) 0 =
      (if g.getD (y * w + x) 0 ≥ 1/2 then (1 : ℚ) else 0) := by
  have hww : (y + 1) * w = y * w + w := by ring
  rw [ditherCell_getD g w h x y hx hy hg (y * w + x)]
  have h2 : ¬(y * w + x + 1 = y * w + x) := by omega
  have h3 : ¬((y + 1) * w + x - 1 = y * w + x) := by omega
  have h4 : ¬((y + 1) * w + x = y * w + x) := by omega
  have h5 : ¬((y + 1) * w + x + 1 = y * w + x) := by omega
  simp only [eq_false h2, eq_false h3, eq_false h4, eq_false h5,
    and_false, false_and, if_false, eq_self_iff_true, if_true]
  ring

theorem ditherRow_succ (g : List ℚ) (w h y n : Nat) :
    ditherRow g w h y (n + 1) = ditherCell (ditherRow g w h y n) w h n y := by
  unfold ditherRow
  rw [List.range_succ, List.foldl_append, List.foldl_cons, List.foldl_nil]

theorem ditherRow_length (g : List ℚ) (w h y : Nat) :
    ∀ n, (ditherRow g w h y n).length = g.length := by
  intro n
  induction n with
  | zero => rfl
  | succ n ih => rw [ditherRow_succ, ditherCell_length, ih]

theorem ditherRows_succ (g : List ℚ) (w h m : Nat) :
    ditherRows g w h (m + 1) = ditherRow (ditherRows g w h m) w h m w := by
  unfold ditherRows
  rw [List.range_succ, List.foldl_append, List.foldl_cons, List.foldl_nil]

theorem ditherRows_length (g : List ℚ) (w h : Nat) :
    ∀ m, (ditherRows g w h m).length = g.length := by
  intro m
  induction m with
  | zero => rfl
  | succ m ih => rw [ditherRows_succ, ditherRow_length, ih]

theorem ditherRow_getD_preserve (g : List ℚ) (w h y : Nat) (hy : y < h)
    (hg : g.length = w * h) (j : Nat) :
    ∀ n, n ≤ w → j < y * w → (ditherRow g w h y n).getD j 0 = g.getD j 0 := by
  intro n
  induction n with
  | zero => intro _ _; rfl
  | succ n ih =>
    intro hn hj
    rw [ditherRow_succ, ditherCell_getD_lt _ w h n y (by omega) hy
      (by rw [ditherRow_length]; exact hg) j (by omega)]
    exact ih (by omega) hj

theorem ditherRow_getD_self (g : List ℚ) (w h x y : Nat) (hw : 2 ≤ w) (hx : x < w)
    (hy : y < h) (hg : g.length = w * h) :
    ∀ n, x < n → n ≤ w →
      (ditherRow g w h y n).getD (y * w + x) 0 =
        (if (ditherRow g w h y x).getD (y * w + x) 0 ≥ 1/2 then (1 : ℚ) else 0) := by
  intro n
  induction n with
  | zero => intro h1 _; omega
  | succ n ih =>
    intro h1 h2
    rcases eq_or_ne x n with he | hne
    · subst he
      rw [ditherRow_succ]
      exact ditherCell_getD_self _ w h x y hw hx hy (by rw [ditherRow_length]; exact hg)
    · have hxn : x < n := by omega
      rw [ditherRow_succ, ditherCell_getD_lt _ w h n y (by omega) hy
        (by rw [ditherRow_length]; exact hg) _ (by omega)]
      exact ih hxn (by omega)

theorem foldRows_length (l : List Nat) (w h : Nat) :
    ∀ g : List ℚ, (l.foldl (fun g y' => ditherRow g w h y' w) g).length = g.length := by
  induction l with
  | nil => intro g; rfl
  | cons a as ih => intro g; rw [List.foldl_cons, ih, ditherRow_length]

theorem ditherRowsFrom_preserve (w h : Nat) (j : Nat) :
    ∀ k y0 g, (g : List ℚ).length = w * h → y0 + k ≤ h → j < y0 * w →
      (((List.range k).map (fun i => y0 + i)).foldl
        (fun g y' => ditherRow g w h y' w) g).getD j 0 = g.getD j 0 := by
  intro k
  induction k with
  | zero => intro y0 g _ _ _; rfl
  | succ k ih =>
    intro y0 g hg hk hj
    rw [List.range_succ, List.map_append, List.foldl_append]
    simp only [List.map_cons, List.map_nil, List.foldl_cons, List.foldl_nil]
    have hmul : y0 * w ≤ (y0 + k) * w := Nat.mul_le_mul_right w (by omega)
    rw [ditherRow_getD_preserve _ w h (y0 + k) (by omega)
      (by rw [foldRows_length]; exact hg) j w (Nat.le_refl w) (by omega)]
    exact ih y0 g hg (by omega) hj

theorem ditherRows_add (g : List ℚ) (w h a b : Nat) :
    ditherRows g w h (a + b) =
      ((List.range b).map (fun i => a + i)).foldl
        (fun g y' => ditherRow g w h y' w) (ditherRows g w h a) := by
  unfold ditherRows
  rw [List.range_add, List.foldl_append]

/-- For grids at least two columns wide, the value a cell holds when the pass
finishes is exactly the quantized value frozen at the moment the cell was
visited. -/
theorem dither_final_eq_frozen (g : List ℚ) (w h x y : Nat) (hw : 2 ≤ w)
    (hx : x < w) (hy : y < h) (hg : g.length = w * h) :
    (floydSteinbergDither g w h).getD (y * w + x) 0 =
      (if (visitState g w h x y).getD (y * w + x) 0 ≥ 1/2 then (1 : ℚ) else 0) := by
  have hww : (y + 1) * w = y * w + w := by ring
  have hh : (y + 1) + (h - (y + 1)) = h := by omega
  have hsplit : ditherRows g w h h =
      ((List.range (h - (y + 1))).map (fun i => (y + 1) + i)).foldl
        (fun g y' => ditherRow g w h y' w) (ditherRows g w h (y + 1)) := by
    rw [← ditherRows_add, hh]
  unfold floydSteinbergDither
  rw [hsplit]
  rw [ditherRowsFrom_preserve w h (y * w + x) (h - (y + 1)) (y + 1) _
    (by rw [ditherRows_length]; exact hg) (by omega) (by omega)]
  rw [ditherRows_succ]
  rw [ditherRow_getD_self (ditherRows g w h y) w h x y hw hx hy
    (by rw [ditherRows_length]; exact hg) w hx (Nat.le_refl w)]
  rfl

theorem fillByGrayMap_Get_in (src : List ℚ) (w h x y : Nat) (hx : x < w) (hy : y < h) :
    (fillByGrayMap src (Create w h) w h).Get x y =
      ! decide (src.getD (y * w + x) 0 > 1/2) := by
  rw [fillByGrayMap_eq_fillBy]
  exact (fillBy_get w _ h (Create w h) (Create_Sized w h)
    (Nat.le_refl _) (Nat.le_refl _) x y hx).1 hy

/-- C2 counterexample: at `x = 0` (cell `(0,0)` of a 2x2 grid) the southwest
share is NOT skipped: the cell at flat index `1` — the east neighbor — ends
up with `orig * (7/16 + 3/16) = 1/4`, not the `orig * 7/16 = 7/40` the claim
requires when the southwest share is dropped and no other cell is modified
in its place. -/
theorem C2_counterexample :
    ditherCell [2/5, 0, 0, 0] 2 2 0 0 = [0, 1/4, 1/8, 1/40] ∧
    (1/4 : ℚ) ≠ 0 + (2/5 : ℚ) * 7 / 16 := by
  constructor
  · norm_num [ditherCell, modifyAt]
  · norm_num

/-- C2 (amended): for every visited cell, east `(x+1, y)` receives 7/16 of
the quantization error (guarded by `x ≠ w-1`), south `(x, y+1)` 5/16 and
southeast `(x+1, y+1)` 1/16 (guarded by `y ≠ h-1` resp. both guards), and the
3/16 southwest share always goes to flat index `(y+1)*w + x - 1`: the
neighbor `(x-1, y+1)` when `x > 0`, but the last cell `(w-1, y)` of the
current row when `x = 0` — it is not skipped. No other index changes
(coinciding indices receive the sum of their shares). -/
theorem C2_diffusion (g : List ℚ) (w h x y : Nat) (hx : x < w) (hy : y < h)
    (hg : g.length = w * h) :
    (∀ j, (ditherCell g w h x y).getD j 0 =
      (if y * w + x = j
       then (if g.getD (y * w + x) 0 ≥ 1/2 then (1 : ℚ) else 0)
       else g.getD j 0) +
      (g.getD (y * w + x) 0 - (if g.getD (y * w + x) 0 ≥ 1/2 then (1 : ℚ) else 0)) *
        ((if x ≠ w - 1 ∧ y * w + x + 1 = j then (7 : ℚ)/16 else 0) +
         (if y ≠ h - 1 ∧ (y + 1) * w + x - 1 = j then (3 : ℚ)/16 else 0) +
         (if y ≠ h - 1 ∧ (y + 1) * w + x = j then (5 : ℚ)/16 else 0) +
         (if x ≠ w - 1 ∧ y ≠ h - 1 ∧ (y + 1) * w + x + 1 = j then (1 : ℚ)/16 else 0))) ∧
    (0 < x → (y + 1) * w + x - 1 = (y + 1) * w + (x - 1)) ∧
    (x = 0 → (y + 1) * w + x - 1 = y * w + (w - 1)) := by
  refine ⟨fun j => ditherCell_getD g w h x y hx hy hg j, ?_, ?_⟩
  · intro hx0
    omega
  · intro hx0
    subst hx0
    have hww : (y + 1) * w = y * w + w := by ring
    have hw1 : 1 ≤ w := by omega
    omega

/-- Witness for C2 (amended) at a concrete grid: cell `(0,0)` of a 2x2 grid
with value `2/5` leaves the east/southwest-aliased index `1` holding `1/4`. -/
theorem C2_diffusion_witness :
    (ditherCell [2/5, 0, 0, 0] 2 2 0 0).getD 1 0 = 1/4 := by
  have h := (C2_diffusion [2/5, 0, 0, 0] 2 2 0 0 (by norm_num) (by norm_num)
    (by norm_num)).1 1
  rw [h]
  norm_num

/-- C3 counterexample: on a 1-column grid ([2/5, 0], w = 1, h = 2) the value
the pass leaves at cell `(0,0)` is `3/40`, which is neither 0 nor 1 — but
the quantization step stores only 0 or 1, so the stored value was changed
after it was frozen (by the cell's own southwest write, which lands on the
cell itself when w = 1), refuting that the stored value is the final one. -/
theorem C3_counterexample :
    floydSteinbergDither [2/5, 0] 1 2 = [3/40, 0] ∧
    ¬((3 : ℚ)/40 = 0 ∨ (3 : ℚ)/40 = 1) := by
  constructor
  · norm_num [floydSteinbergDither, ditherRows, ditherRow, ditherCell, modifyAt,
      List.range_succ, List.foldl_append, List.foldl_cons, List.foldl_nil]
  · norm_num

/-- C3 (amended): each cell is quantized to 1 exactly when its residual at
visit time is at least 1/2, and for grids at least 2 columns wide this
frozen value is the cell's final value (later steps only target
not-yet-visited cells); for `w = 1` the southwest share of the cell's own
error is added back onto the cell after freezing. After the pass,
`fillByGrayMap` sets the pixel black iff the final grid value is not
`> 1/2`. -/
theorem C3_quantize :
    (∀ (g : List ℚ) (w h x y : Nat), 2 ≤ w → x < w → y < h → g.length = w * h →
      (floydSteinbergDither g w h).getD (y * w + x) 0 =
        (if (visitState g w h x y).getD (y * w + x) 0 ≥ 1/2 then (1 : ℚ) else 0)) ∧
    (∀ (src : List ℚ) (w h x y : Nat), x < w → y < h →
      (fillByGrayMap src (Create w h) w h).Get x y =
        ! decide (src.getD (y * w + x) 0 > 1/2)) :=
  ⟨fun g w h x y hw hx hy hg => dither_final_eq_frozen g w h x y hw hx hy hg,
   fun src w h x y hx hy => fillByGrayMap_Get_in src w h x y hx hy⟩

/-- Witness for C3 (amended) at a concrete grid: cell `(0,0)` of a 2x2 grid
with initial value `3/5` freezes to 1 and keeps it, and the fill step makes
the corresponding pixel white, i.e. not black. -/
theorem C3_quantize_witness :
    (floydSteinbergDither [3/5, 1/5, 0, 0] 2 2).getD (0 * 2 + 0) 0 = 1 ∧
    (fillByGrayMap [3/5, 1/5, 0, 0] (Create 2 2) 2 2).Get 0 0 = false := by
  constructor
  · have h := C3_quantize.1 [3/5, 1/5, 0, 0] 2 2 0 0 (by norm_num) (by norm_num)
      (by norm_num) (by norm_num)
    rw [h]
    norm_num [visitState, ditherRow, ditherRows]
  · have h := C3_quantize.2 [3/5, 1/5, 0, 0] 2 2 0 0 (by norm_num) (by norm_num)
    rw [h]
    norm_num

/-- C10 counterexample: the cell aliased by the `x = 0` southwest write is
NOT already visited. On the grid `[2/5, 3/10, 0, 0]` (w = h = 2), right
after cell `(0,0)` is processed the aliased index `1` (pixel `(1,0)`, the
last cell of the current row) holds `11/20`; the finished pass leaves `1`
there — the cell changed again because it was visited only later. -/
theorem C10_counterexample :
    (ditherCell [2/5, 3/10, 0, 0] 2 2 0 0).getD 1 0 = 11/20 ∧
    (floydSteinbergDither [2/5, 3/10, 0, 0] 2 2).getD 1 0 = 1 ∧
    (11/20 : ℚ) ≠ 1 := by
  refine ⟨?_, ?_, by norm_num⟩
  · norm_num [ditherCell, modifyAt]
  · norm_num [floydSteinbergDither, ditherRows, ditherRow, ditherCell, modifyAt,
      List.range_succ, List.foldl_append, List.foldl_cons, List.foldl_nil]

/-- C10 (amended): for every `w`, `h` and grid of length `w*h` the dithering
pass only ever touches indices inside the grid and is a total function: the
grid length is preserved, every index the loop body forms for an in-range
cell — including the unguarded southwest index `(y+1)*w + x - 1` — is below
`w*h`, and at `x = 0` that southwest index equals `y*w + (w-1)`, the last,
not-yet-visited cell of the current row. -/
theorem C10_safety :
    (∀ (g : List ℚ) (w h : Nat), g.length = w * h →
      (floydSteinbergDither g w h).length = w * h) ∧
    (∀ w h x y : Nat, x < w → y < h →
      y * w + x < w * h ∧
      (x ≠ w - 1 → y * w + x + 1 < w * h) ∧
      (y ≠ h - 1 → ((y + 1) * w + x - 1 < w * h ∧ (y + 1) * w + x < w * h ∧
        (x ≠ w - 1 → (y + 1) * w + x + 1 < w * h)))) ∧
    (∀ w y : Nat, 1 ≤ w → (y + 1) * w + 0 - 1 = y * w + (w - 1)) := by
  refine ⟨?_, ?_, ?_⟩
  · intro g w h hg
    exact (ditherRows_length g w h h).trans hg
  · intro w h x y hx hy
    have hww : (y + 1) * w = y * w + w := by ring
    have h1 := cellIdx_lt hx hy
    refine ⟨h1, ?_, ?_⟩
    · intro hxe
      have hx1 : x + 1 < w := by omega
      have := cellIdx_lt hx1 hy
      omega
    · intro hye
      have hy1 : y + 1 < h := by omega
      have hs := cellIdx_lt hx hy1
      refine ⟨by omega, hs, ?_⟩
      intro hxe
      have hx1 : x + 1 < w := by omega
      have := cellIdx_lt hx1 hy1
      omega
  · intro w y hw
    have hww : (y + 1) * w = y * w + w := by ring
    omega

/-- Witness for C10 (amended) at concrete inputs. -/
theorem C10_safety_witness :
    (floydSteinbergDither [0, 0] 2 1).length = 2 * 1 ∧
    (0 + 1) * 2 + 0 - 1 = 0 * 2 + (2 - 1) :=
  ⟨C10_safety.1 [0, 0] 2 1 rfl, C10_safety.2.2 2 0 (by norm_num)⟩

end Rgf
